import Mathlib

/-!
# Verification of the road_inspect pipeline

A shallow embedding of the road-damage detection pipeline:
`detection_service.py` (overlap computation and the overlap resolver),
`analysis_service.py` (enrichment throttling, the Gemini response parser and
its failure fallback), `database_service.py` (the upsert store) and
`run_service.py` (the main per-detection loop).

Numeric values (box coordinates, confidences, times, thresholds) are modelled
as rationals; Python dictionaries keyed by track id are modelled as
association lists where a write conses a fresh entry and a read takes the
first matching entry.  `np.argsort(-confidences)` is modelled as a stable
insertion sort on descending confidence (numpy's sort on the small per-frame
arrays is its insertion sort, which is stable).
-/

namespace RoadInspect

/-- An axis-aligned box `(x1, y1, x2, y2)`, as unpacked in
`calculate_overlap_percentage`. -/
structure Box where
  x1 : ℚ
  y1 : ℚ
  x2 : ℚ
  y2 : ℚ
deriving DecidableEq

/-- Model of `DetectionService.calculate_overlap_percentage`: intersection area divided
by the smaller of the two box areas, as a percentage. -/
def calculate_overlap_percentage (box1 box2 : Box) : ℚ :=
  let x1_inter := max box1.x1 box2.x1
  let y1_inter := max box1.y1 box2.y1
  let x2_inter := min box1.x2 box2.x2
  let y2_inter := min box1.y2 box2.y2
  if x2_inter ≤ x1_inter ∨ y2_inter ≤ y1_inter then 0
  else
    let intersection_area := (x2_inter - x1_inter) * (y2_inter - y1_inter)
    let box1_area := (box1.x2 - box1.x1) * (box1.y2 - box1.y1)
    let box2_area := (box2.x2 - box2.x1) * (box2.y2 - box2.y1)
    let smaller_area := min box1_area box2_area
    if 0 < smaller_area then intersection_area / smaller_area * 100 else 0

/-- One entry of the parallel arrays handed to
`filter_overlapping_detections`. -/
structure Detection where
  box : Box
  confidence : ℚ
  track_id : ℤ
  class_id : ℤ
deriving DecidableEq

/-- Descending-confidence order used by `np.argsort(-confidences)`. -/
def confGE (a b : Detection) : Prop := b.confidence ≤ a.confidence

instance : DecidableRel confGE := fun a b =>
  inferInstanceAs (Decidable (b.confidence ≤ a.confidence))

instance : IsTotal Detection confGE := ⟨fun a b => le_total b.confidence a.confidence⟩

instance : IsTrans Detection confGE := ⟨fun _ _ _ h h' => le_trans h' h⟩

/-- The sweep order `sorted_indices = np.argsort(-confidences)`, applied to the detection
records. -/
def sortByConfDesc (dets : List Detection) : List Detection :=
  dets.insertionSort confGE

/-- The inner loop of `filter_overlapping_detections`: the current detection is
dropped when some already-kept detection of the same class overlaps it by
strictly more than the threshold. -/
def suppressedBy (thr : ℚ) (kept : List Detection) (d : Detection) : Prop :=
  ∃ k ∈ kept, k.class_id = d.class_id ∧ thr < calculate_overlap_percentage d.box k.box

instance (thr : ℚ) (kept : List Detection) (d : Detection) :
    Decidable (suppressedBy thr kept d) :=
  inferInstanceAs (Decidable
    (∃ k ∈ kept, k.class_id = d.class_id ∧ thr < calculate_overlap_percentage d.box k.box))

/-- The outer loop of `filter_overlapping_detections`: fold over the
confidence-sorted detections, appending each survivor to `kept`. -/
def keepLoop (thr : ℚ) (kept : List Detection) : List Detection → List Detection
  | [] => kept
  | d :: rest =>
    if suppressedBy thr kept d then keepLoop thr kept rest
    else keepLoop thr (kept ++ [d]) rest

/-- Model of `DetectionService.filter_overlapping_detections`. -/
def filter_overlapping_detections (thr : ℚ) (dets : List Detection) : List Detection :=
  keepLoop thr [] (sortByConfDesc dets)

/-! ## Basic lemmas about the overlap computation -/

theorem overlap_comm (b1 b2 : Box) :
    calculate_overlap_percentage b1 b2 = calculate_overlap_percentage b2 b1 := by
  simp only [calculate_overlap_percentage]
  rw [max_comm b2.x1 b1.x1, max_comm b2.y1 b1.y1, min_comm b2.x2 b1.x2, min_comm b2.y2 b1.y2,
    min_comm ((b2.x2 - b2.x1) * (b2.y2 - b2.y1)) ((b1.x2 - b1.x1) * (b1.y2 - b1.y1))]

/-- A box of non-positive width or height makes the left argument's overlap
vanish. -/
theorem overlap_eq_zero_left (b1 b2 : Box) (h : b1.x2 ≤ b1.x1 ∨ b1.y2 ≤ b1.y1) :
    calculate_overlap_percentage b1 b2 = 0 := by
  simp only [calculate_overlap_percentage]
  rcases h with h | h
  · have hx : min b1.x2 b2.x2 ≤ max b1.x1 b2.x1 :=
      le_trans (min_le_left _ _) (le_trans h (le_max_left _ _))
    rw [if_pos (Or.inl hx)]
  · have hy : min b1.y2 b2.y2 ≤ max b1.y1 b2.y1 :=
      le_trans (min_le_left _ _) (le_trans h (le_max_left _ _))
    rw [if_pos (Or.inr hy)]

theorem overlap_eq_zero_right (b1 b2 : Box) (h : b2.x2 ≤ b2.x1 ∨ b2.y2 ≤ b2.y1) :
    calculate_overlap_percentage b1 b2 = 0 := by
  rw [overlap_comm]; exact overlap_eq_zero_left b2 b1 h

/-! ## Structural lemmas about the keep loop -/

/-- The kept list only ever grows: the result is `kept` followed by a
subsequence of the remaining input. -/
theorem keepLoop_eq_append (thr : ℚ) :
    ∀ (xs kept : List Detection),
      ∃ t, keepLoop thr kept xs = kept ++ t ∧ List.Sublist t xs := by
  intro xs
  induction xs with
  | nil => exact fun kept => ⟨[], by simp [keepLoop], List.Sublist.refl _⟩
  | cons d rest ih =>
    intro kept
    by_cases h : suppressedBy thr kept d
    · obtain ⟨t, ht, hs⟩ := ih kept
      exact ⟨t, by simp [keepLoop, h, ht], hs.trans (List.sublist_cons_self d rest)⟩
    · obtain ⟨t, ht, hs⟩ := ih (kept ++ [d])
      refine ⟨d :: t, ?_, hs.cons₂ d⟩
      simp [keepLoop, h, ht]

theorem mem_keepLoop_of_mem_kept (thr : ℚ) (xs kept : List Detection) {k : Detection}
    (hk : k ∈ kept) : k ∈ keepLoop thr kept xs := by
  obtain ⟨t, ht, -⟩ := keepLoop_eq_append thr xs kept
  rw [ht]; exact List.mem_append_left t hk

/-- Processing a concatenation processes the two halves in sequence. -/
theorem keepLoop_append (thr : ℚ) :
    ∀ (xs ys kept : List Detection),
      keepLoop thr kept (xs ++ ys) = keepLoop thr (keepLoop thr kept xs) ys := by
  intro xs
  induction xs with
  | nil => intro ys kept; rfl
  | cons d rest ih =>
    intro ys kept
    by_cases h : suppressedBy thr kept d <;> simp [keepLoop, h, ih]

theorem keepLoop_nil_subset (thr : ℚ) (xs : List Detection) :
    ∀ k ∈ keepLoop thr [] xs, k ∈ xs := by
  intro k hk
  obtain ⟨t, ht, hts⟩ := keepLoop_eq_append thr xs []
  rw [ht] at hk
  exact hts.subset (by simpa using hk)

/-! ## The concrete scenario of the spec -/

/-- The detection `id 1, class "pothole", box (0,0,10,10), conf 0.9` of the scenario. -/
def c1_det1 : Detection := ⟨⟨0, 0, 10, 10⟩, 9/10, 1, 0⟩

/-- The detection `id 2, class "pothole", box (1,1,9,9), conf 0.6` of the scenario. -/
def c1_det2 : Detection := ⟨⟨1, 1, 9, 9⟩, 6/10, 2, 0⟩

/-- Claim C1: A detection of the confidence-sorted frame is discarded by the
Overlap Resolver iff some kept detection processed before it (hence of
confidence at least as high) has the same class and overlaps it by strictly
more than the threshold; and on the spec's concrete input with threshold 50
only id 1 survives. -/
theorem c1_overlap_resolver :
    (∀ (thr : ℚ) (dets pre post : List Detection) (d : Detection),
        (sortByConfDesc dets).Nodup →
        sortByConfDesc dets = pre ++ d :: post →
        (d ∉ filter_overlapping_detections thr dets ↔
          ∃ k, k ∈ filter_overlapping_detections thr dets ∧ k ∈ pre ∧
            k.class_id = d.class_id ∧
            thr < calculate_overlap_percentage d.box k.box ∧
            d.confidence ≤ k.confidence))
    ∧ filter_overlapping_detections 50 [c1_det1, c1_det2] = [c1_det1] := by
  constructor
  · intro thr dets pre post d hnd hS
    have hout : filter_overlapping_detections thr dets
        = keepLoop thr (keepLoop thr [] pre) (d :: post) := by
      rw [filter_overlapping_detections, hS, keepLoop_append]
    have hKpre_sub : ∀ k ∈ keepLoop thr [] pre, k ∈ pre := keepLoop_nil_subset thr pre
    rw [hS, List.nodup_append] at hnd
    obtain ⟨hnd_pre, hnd_dpost, hdisj⟩ := hnd
    have hd_not_pre : d ∉ pre := fun hmem => hdisj hmem (List.mem_cons_self d post)
    have hd_not_post : d ∉ post := (List.nodup_cons.mp hnd_dpost).1
    have hsorted : (sortByConfDesc dets).Sorted confGE := List.sorted_insertionSort confGE dets
    rw [hS] at hsorted
    have hconf : ∀ k ∈ pre, d.confidence ≤ k.confidence := fun k hk =>
      (List.pairwise_append.mp hsorted).2.2 k hk d (List.mem_cons_self d post)
    constructor
    · intro hd_not
      by_cases hsup : suppressedBy thr (keepLoop thr [] pre) d
      · obtain ⟨k, hkK, hclass, hover⟩ := hsup
        refine ⟨k, ?_, hKpre_sub k hkK, hclass, hover, hconf k (hKpre_sub k hkK)⟩
        rw [hout]
        exact mem_keepLoop_of_mem_kept thr _ _ hkK
      · exfalso
        apply hd_not
        rw [hout]
        simp only [keepLoop, if_neg hsup]
        exact mem_keepLoop_of_mem_kept thr post _ (List.mem_append_right _ (by simp))
    · rintro ⟨k, hk_out, hk_pre, hclass, hover, -⟩
      have hkK : k ∈ keepLoop thr [] pre := by
        rw [hout] at hk_out
        obtain ⟨t, ht, hts⟩ := keepLoop_eq_append thr (d :: post) (keepLoop thr [] pre)
        rw [ht] at hk_out
        rcases List.mem_append.mp hk_out with h | h
        · exact h
        · exact absurd (hts.subset h) (fun hp => hdisj hk_pre hp)
      have hsup : suppressedBy thr (keepLoop thr [] pre) d := ⟨k, hkK, hclass, hover⟩
      intro hd_in
      rw [hout] at hd_in
      simp only [keepLoop, if_pos hsup] at hd_in
      obtain ⟨t, ht, hts⟩ := keepLoop_eq_append thr post (keepLoop thr [] pre)
      rw [ht] at hd_in
      rcases List.mem_append.mp hd_in with h | h
      · exact hd_not_pre (hKpre_sub d h)
      · exact hd_not_post (hts.subset h)
  · norm_num [filter_overlapping_detections, sortByConfDesc, List.insertionSort,
      List.orderedInsert, confGE, keepLoop, suppressedBy, calculate_overlap_percentage,
      c1_det1, c1_det2]

/-- Witness for C1: the characterization instantiated at the spec's concrete
frame (threshold 50, detections id 1 and id 2). -/
theorem c1_overlap_resolver_witness :
    c1_det2 ∉ filter_overlapping_detections 50 [c1_det1, c1_det2] ↔
      ∃ k, k ∈ filter_overlapping_detections 50 [c1_det1, c1_det2] ∧ k ∈ [c1_det1] ∧
        k.class_id = c1_det2.class_id ∧
        50 < calculate_overlap_percentage c1_det2.box k.box ∧
        c1_det2.confidence ≤ k.confidence :=
  c1_overlap_resolver.1 50 [c1_det1, c1_det2] [c1_det1] [] c1_det2
    (by norm_num [sortByConfDesc, List.insertionSort, List.orderedInsert, confGE,
      c1_det1, c1_det2])
    (by norm_num [sortByConfDesc, List.insertionSort, List.orderedInsert, confGE,
      c1_det1, c1_det2])

/-- A detection that no kept list can ever suppress survives the loop. -/
theorem mem_keepLoop_self (thr : ℚ) (d : Detection)
    (hns : ∀ kept, ¬ suppressedBy thr kept d) :
    ∀ (xs kept : List Detection), d ∈ xs → d ∈ keepLoop thr kept xs := by
  intro xs
  induction xs with
  | nil => intro kept h; cases h
  | cons x rest ih =>
    intro kept hx
    rcases List.mem_cons.mp hx with rfl | hmem
    · simp only [keepLoop]
      rw [if_neg (hns kept)]
      exact mem_keepLoop_of_mem_kept thr rest _ (List.mem_append_right _ (by simp))
    · simp only [keepLoop]
      by_cases h : suppressedBy thr kept x
      · rw [if_pos h]; exact ih _ hmem
      · rw [if_neg h]; exact ih _ hmem

/-- Claim C10: The overlap percentage is symmetric in its two boxes. -/
theorem c10_overlap_symmetric (b1 b2 : Box) :
    calculate_overlap_percentage b1 b2 = calculate_overlap_percentage b2 b1 :=
  overlap_comm b1 b2

/-- Claim C6: A box of non-positive width or height has overlap exactly 0 with
every box, in both argument positions (so the division is never reached), and
for a non-negative threshold a degenerate detection is never suppressed by the
Overlap Resolver. -/
theorem c6_degenerate_boxes :
    (∀ b1 b2 : Box, b1.x2 ≤ b1.x1 ∨ b1.y2 ≤ b1.y1 →
      calculate_overlap_percentage b1 b2 = 0 ∧ calculate_overlap_percentage b2 b1 = 0)
    ∧ (∀ (thr : ℚ) (dets : List Detection) (d : Detection), 0 ≤ thr → d ∈ dets →
        d.box.x2 ≤ d.box.x1 ∨ d.box.y2 ≤ d.box.y1 →
        d ∈ filter_overlapping_detections thr dets) := by
  constructor
  · intro b1 b2 h
    exact ⟨overlap_eq_zero_left b1 b2 h, overlap_eq_zero_right b2 b1 h⟩
  · intro thr dets d hthr hd hdeg
    have hz : ∀ k : Detection, calculate_overlap_percentage d.box k.box = 0 := fun k =>
      overlap_eq_zero_left _ _ hdeg
    have hns : ∀ kept, ¬ suppressedBy thr kept d := by
      rintro kept ⟨k, -, -, hover⟩
      rw [hz k] at hover
      exact absurd hover (not_lt.mpr hthr)
    exact mem_keepLoop_self thr d hns (sortByConfDesc dets) []
      (by rw [sortByConfDesc]; exact (List.mem_insertionSort _).mpr hd)

/-- A degenerate (zero-width) detection used to instantiate C6. -/
def c6_deg : Detection := ⟨⟨5, 5, 5, 9⟩, 1/2, 9, 0⟩

/-- Witness for C6: a zero-width detection survives the resolver at the
configured threshold 50. -/
theorem c6_degenerate_boxes_witness :
    c6_deg ∈ filter_overlapping_detections 50 [c6_deg] :=
  c6_degenerate_boxes.2 50 [c6_deg] c6_deg (by norm_num) (by simp)
    (by norm_num [c6_deg])

/-- Claim C7: The resolver's output consists of input detections (no new or
mutated entries, multiplicities never increase), listed in descending
confidence; it is a sublist of the stably sorted input, and the stable sort
keeps equal-confidence detections in their original relative order. -/
theorem c7_resolver_output_shape (thr : ℚ) (dets : List Detection) :
    (∀ d ∈ filter_overlapping_detections thr dets, d ∈ dets) ∧
    (∀ d, (filter_overlapping_detections thr dets).count d ≤ dets.count d) ∧
    (filter_overlapping_detections thr dets).Sorted confGE ∧
    List.Sublist (filter_overlapping_detections thr dets) (sortByConfDesc dets) ∧
    (∀ a b : Detection, a.confidence = b.confidence → List.Sublist [a, b] dets →
      List.Sublist [a, b] (sortByConfDesc dets)) := by
  have hsub : List.Sublist (filter_overlapping_detections thr dets) (sortByConfDesc dets) := by
    obtain ⟨t, ht, hts⟩ := keepLoop_eq_append thr (sortByConfDesc dets) []
    rw [filter_overlapping_detections, ht]
    simpa using hts
  have hperm : List.Perm (sortByConfDesc dets) dets := List.perm_insertionSort confGE dets
  refine ⟨?_, ?_, ?_, hsub, ?_⟩
  · intro d hd
    exact hperm.mem_iff.mp (hsub.subset hd)
  · intro d
    calc (filter_overlapping_detections thr dets).count d
        ≤ (sortByConfDesc dets).count d := hsub.count_le d
      _ = dets.count d := hperm.count_eq d
  · exact (List.sorted_insertionSort confGE dets).sublist hsub
  · intro a b hconf hab
    exact List.pair_sublist_insertionSort (le_of_eq hconf.symm) hab

/-- Equal-confidence detections used to instantiate C7's stability clause. -/
def c7_a : Detection := ⟨⟨0, 0, 2, 2⟩, 1/2, 3, 0⟩

/-- Second equal-confidence detection for the C7 witness. -/
def c7_b : Detection := ⟨⟨100, 100, 102, 102⟩, 1/2, 4, 0⟩

/-- Witness for C7: two equal-confidence detections keep their input order in
the sorted list. -/
theorem c7_resolver_output_shape_witness :
    List.Sublist [c7_a, c7_b] (sortByConfDesc [c7_a, c7_b]) :=
  (c7_resolver_output_shape 50 [c7_a, c7_b]).2.2.2.2 c7_a c7_b
    (by norm_num [c7_a, c7_b]) (List.Sublist.refl _)

/-! ## The analysis service (`analysis_service.py`)

The Gemini response parser (`re.search` over the response text), the
per-track enrichment throttle of `process_detection`, and the failure
fallback of `analyze_damage_with_gemini`.  The external model call is a
collaborator outside this repository; its outcome enters the embedding as an
`Except` value (response text or failure). -/

/-- A parsed verdict: the `{"severity": ..., "recommendation": ...}` dict
stored in `track_results`. -/
structure Verdict where
  severity : String
  recommendation : String
deriving DecidableEq

/-- ASCII whitespace matched by the regex class `\s` and stripped by
`str.strip`. -/
def isSpaceChar (c : Char) : Bool :=
  c = ' ' || c = '\t' || c = '\n' || c = '\r' || c = '\x0b' || c = '\x0c'

/-- Case-insensitive literal match: drop `p` from the front of `s`, comparing
characters after lowercasing (the regexes use `re.IGNORECASE`). -/
def stripPrefixCI : List Char → List Char → Option (List Char)
  | [], s => some s
  | _ :: _, [] => none
  | p :: ps, c :: cs => if c.toLower = p.toLower then stripPrefixCI ps cs else none

def isPrefixCI (p s : List Char) : Bool := (stripPrefixCI p s).isSome

/-- Python `str.strip()`. -/
def trimChars (s : List Char) : List Char :=
  ((s.dropWhile isSpaceChar).reverse.dropWhile isSpaceChar).reverse

/-- One attempt of `re.search(r'Severity:\s*(low|medium|high)', ..., IGNORECASE)`
at a fixed start position: the literal, a greedy whitespace run, then the
first alternative that fits; the captured group is lowercased. -/
def matchSeverityAt (s : List Char) : Option String :=
  match stripPrefixCI "severity:".toList s with
  | none => none
  | some rest =>
    let rest2 := rest.dropWhile isSpaceChar
    if isPrefixCI "low".toList rest2 then some "low"
    else if isPrefixCI "medium".toList rest2 then some "medium"
    else if isPrefixCI "high".toList rest2 then some "high"
    else none

/-- Leftmost-match scan of the severity pattern. -/
def searchSeverity : List Char → Option String
  | [] => none
  | c :: cs =>
    match matchSeverityAt (c :: cs) with
    | some v => some v
    | none => searchSeverity cs

/-- One attempt of `re.search(r'Recommendation:\s*(.+)', ..., IGNORECASE|DOTALL)`
at a fixed start position: after the literal, the greedy `\s*` backs off just
enough for `(.+)` to take at least one character, and `(.+)` under `DOTALL`
takes everything to the end of the text. -/
def matchRecommendationAt (s : List Char) : Option (List Char) :=
  match stripPrefixCI "recommendation:".toList s with
  | none => none
  | some [] => none
  | some (c :: cs) =>
    let t := (c :: cs).dropWhile isSpaceChar
    if t.isEmpty then some [(c :: cs).getLastD c] else some t

/-- Leftmost-match scan of the recommendation pattern. -/
def searchRecommendation : List Char → Option (List Char)
  | [] => none
  | c :: cs =>
    match matchRecommendationAt (c :: cs) with
    | some g => some g
    | none => searchRecommendation cs

/-- The parsing block of `analyze_damage_with_gemini` (lines 43-47): each
field falls back individually when its pattern is absent. -/
def parse_gemini_response (result : String) : Verdict :=
  { severity := (searchSeverity result.toList).getD "medium"
    recommendation :=
      match searchRecommendation result.toList with
      | some g => String.mk (trimChars g)
      | none => "Schedule inspection" }

/-- The mutable state of `AnalysisService`: `last_sent_times` and
`track_results`, dictionaries keyed by track id (a write conses an entry, a
read takes the first match). -/
structure AnalysisState where
  last_sent_times : List (ℤ × ℚ)
  track_results : List (ℤ × Verdict)
deriving DecidableEq

/-- Reading `self.last_sent_times.get(track_id, 0)`. -/
def lookupLast (l : List (ℤ × ℚ)) (track_id : ℤ) : ℚ :=
  match l.find? fun p => p.1 == track_id with
  | some p => p.2
  | none => 0

/-- Reading `self.track_results` for a track, `none` when absent. -/
def lookupResult (l : List (ℤ × Verdict)) (track_id : ℤ) : Option Verdict :=
  (l.find? fun p => p.1 == track_id).map Prod.snd

/-- Writing `self.track_results[track_id] = v`. -/
def setResult (l : List (ℤ × Verdict)) (track_id : ℤ) (v : Verdict) :
    List (ℤ × Verdict) :=
  (track_id, v) :: l

/-- Model of `AnalysisService.process_detection`: dispatch (and stamp
`last_sent_times[track_id] = t` immediately, before the thread completes) iff
the interval has strictly elapsed and the crop has non-zero pixel area; the
returned verdict is whatever `track_results` currently holds.  Returns
(new state, dispatched?, returned verdict). -/
def process_detection (interval : ℚ) (st : AnalysisState) (track_id : ℤ)
    (crop_size : ℕ) (t : ℚ) : AnalysisState × Bool × Option Verdict :=
  let last := lookupLast st.last_sent_times track_id
  if interval < t - last ∧ 0 < crop_size then
    ({ st with last_sent_times := (track_id, t) :: st.last_sent_times }, true,
      lookupResult st.track_results track_id)
  else (st, false, lookupResult st.track_results track_id)

/-- The `except` branch's verdict (also the parser's recommendation default). -/
def fallbackVerdict : Verdict := ⟨"medium", "Schedule inspection"⟩

set_option linter.unusedVariables false in
/-- Model of `AnalysisService.analyze_damage_with_gemini`: on a successful call the
stripped response text is parsed and stored; on any failure the complete
fallback verdict is stored and the error is logged (second component), never
re-raised.  (`damage_type` only feeds the prompt of the external call.) -/
def analyze_damage_with_gemini (st : AnalysisState) (track_id : ℤ)
    (damage_type : String) (response : Except String String) :
    AnalysisState × Bool :=
  match response with
  | Except.ok content =>
    let result := String.mk (trimChars content.toList)
    ({ st with track_results :=
        setResult st.track_results track_id (parse_gemini_response result) },
     false)
  | Except.error _ =>
    ({ st with track_results := setResult st.track_results track_id fallbackVerdict },
     true)

/-- The transient defaults of `DetectionService.process_frame`
(lines 169-177): what is displayed/merged when `process_detection` returned
no verdict yet. -/
def display_verdict (analysis_result : Option Verdict) : Verdict :=
  match analysis_result with
  | none => ⟨"low", "Analyzing..."⟩
  | some r => ⟨r.severity, r.recommendation⟩

/-! ## C2: the enrichment throttle -/

/-- Claim C2: A dispatch happens iff the interval has strictly elapsed since the
track's last dispatch (0 when never dispatched) and the crop is non-empty; on
dispatch the stamp is updated to `t` at submission time.  A fresh track seen
at `t`, `t+ε` (`0 < ε < interval`, `interval < t`) dispatches exactly once,
and seen again at `t+interval+ε` dispatches a second time. -/
theorem c2_throttle :
    (∀ (interval : ℚ) (st : AnalysisState) (track_id : ℤ) (crop_size : ℕ) (t : ℚ),
      ((process_detection interval st track_id crop_size t).2.1 = true ↔
        interval < t - lookupLast st.last_sent_times track_id ∧ 0 < crop_size) ∧
      ((process_detection interval st track_id crop_size t).2.1 = true →
        lookupLast (process_detection interval st track_id crop_size t).1.last_sent_times
          track_id = t))
    ∧ (∀ (interval t ε : ℚ) (st : AnalysisState) (track_id : ℤ) (s1 s2 s3 : ℕ),
        0 < ε → ε < interval → interval < t →
        lookupLast st.last_sent_times track_id = 0 →
        0 < s1 → 0 < s2 → 0 < s3 →
        (process_detection interval st track_id s1 t).2.1 = true ∧
        (process_detection interval (process_detection interval st track_id s1 t).1
            track_id s2 (t + ε)).2.1 = false ∧
        (process_detection interval
            (process_detection interval (process_detection interval st track_id s1 t).1
              track_id s2 (t + ε)).1
            track_id s3 (t + interval + ε)).2.1 = true) := by
  constructor
  · intro interval st track_id crop_size t
    constructor
    · by_cases h : interval < t - lookupLast st.last_sent_times track_id ∧ 0 < crop_size
      · simp [process_detection, h]
      · simp [process_detection, h]
    · intro hdisp
      by_cases h : interval < t - lookupLast st.last_sent_times track_id ∧ 0 < crop_size
      · simp only [process_detection]
        rw [if_pos h]
        simp [lookupLast, List.find?]
      · simp [process_detection, h] at hdisp
  · intro interval t ε st track_id s1 s2 s3 hε hεi hti hlast hs1 hs2 hs3
    have hc1 : interval < t - lookupLast st.last_sent_times track_id ∧ 0 < s1 :=
      ⟨by rw [hlast]; linarith, hs1⟩
    have e1 : process_detection interval st track_id s1 t
        = ({ st with last_sent_times := (track_id, t) :: st.last_sent_times }, true,
           lookupResult st.track_results track_id) := by
      simp only [process_detection]
      rw [if_pos hc1]
    have hl1 : lookupLast ((track_id, t) :: st.last_sent_times) track_id = t := by
      simp [lookupLast, List.find?]
    have hc2 : ¬ (interval < (t + ε) - lookupLast ((track_id, t) :: st.last_sent_times)
        track_id ∧ 0 < s2) := by
      rw [hl1]
      rintro ⟨h, -⟩
      linarith
    have e2 : process_detection interval
        ({ st with last_sent_times := (track_id, t) :: st.last_sent_times })
        track_id s2 (t + ε)
        = ({ st with last_sent_times := (track_id, t) :: st.last_sent_times }, false,
           lookupResult st.track_results track_id) := by
      simp only [process_detection]
      rw [if_neg hc2]
    have hc3 : interval < (t + interval + ε) - lookupLast
        ((track_id, t) :: st.last_sent_times) track_id ∧ 0 < s3 := by
      rw [hl1]
      exact ⟨by linarith, hs3⟩
    refine ⟨by rw [e1], by rw [e1, e2], ?_⟩
    rw [e1, e2]
    simp only [process_detection]
    rw [if_pos hc3]

/-- Witness for C2: interval 5, a fresh track observed at times 6, 7 and 12
dispatches at 6, is throttled at 7, and dispatches again at 12. -/
theorem c2_throttle_witness :
    (process_detection 5 ⟨[], []⟩ 1 1 6).2.1 = true ∧
    (process_detection 5 (process_detection 5 ⟨[], []⟩ 1 1 6).1 1 1 (6 + 1)).2.1 = false ∧
    (process_detection 5
        (process_detection 5 (process_detection 5 ⟨[], []⟩ 1 1 6).1 1 1 (6 + 1)).1
        1 1 (6 + 5 + 1)).2.1 = true :=
  c2_throttle.2 5 6 1 ⟨[], []⟩ 1 1 1 1 (by norm_num) (by norm_num) (by norm_num)
    (by simp [lookupLast, List.find?]) (by norm_num) (by norm_num) (by norm_num)

/-! ## C4: failure always yields the complete fallback verdict -/

/-- Claim C4: Every failing enrichment call writes the complete fallback verdict
`{severity: "medium", recommendation: "Schedule inspection"}` into the track's
result slot, reports the failure via logging (`true` flag) instead of raising,
and leaves the throttle state untouched. -/
theorem c4_failure_fallback (st : AnalysisState) (track_id : ℤ)
    (damage_type err : String) :
    lookupResult (analyze_damage_with_gemini st track_id damage_type
        (Except.error err)).1.track_results track_id
      = some ⟨"medium", "Schedule inspection"⟩ ∧
    (analyze_damage_with_gemini st track_id damage_type (Except.error err)).2 = true ∧
    (analyze_damage_with_gemini st track_id damage_type (Except.error err)).1.last_sent_times
      = st.last_sent_times := by
  refine ⟨?_, rfl, rfl⟩
  simp [analyze_damage_with_gemini, lookupResult, setResult, List.find?, fallbackVerdict]

/-! ## C5: the response parser -/

theorem matchSeverityAt_mem (s : List Char) (v : String)
    (h : matchSeverityAt s = some v) :
    v = "low" ∨ v = "medium" ∨ v = "high" := by
  unfold matchSeverityAt at h
  cases hst : stripPrefixCI "severity:".toList s with
  | none => rw [hst] at h; cases h
  | some rest =>
    rw [hst] at h
    dsimp only at h
    split_ifs at h
    · injection h with h'; exact Or.inl h'.symm
    · injection h with h'; exact Or.inr (Or.inl h'.symm)
    · injection h with h'; exact Or.inr (Or.inr h'.symm)

theorem searchSeverity_mem :
    ∀ (l : List Char) (v : String), searchSeverity l = some v →
      v = "low" ∨ v = "medium" ∨ v = "high" := by
  intro l
  induction l with
  | nil => intro v h; cases h
  | cons c cs ih =>
    intro v h
    rw [searchSeverity] at h
    cases hm : matchSeverityAt (c :: cs) with
    | none => rw [hm] at h; exact ih v h
    | some w =>
      rw [hm] at h
      injection h with h'
      exact h' ▸ matchSeverityAt_mem _ _ hm

/-- Claim C5: The parser lowercases a case-insensitively matched
`Severity: <low|medium|high>`, takes the text after `Recommendation:`, lets
each missing or malformed field fall back individually (severity to
`"medium"`, recommendation to the generic message) without discarding the
other, and the parsed severity is always one of the three levels. -/
theorem c5_response_parsing :
    parse_gemini_response "Severity: HIGH\nRecommendation: Repair immediately."
        = ⟨"high", "Repair immediately."⟩ ∧
    parse_gemini_response "Recommendation: Patch within a week."
        = ⟨"medium", "Patch within a week."⟩ ∧
    parse_gemini_response "Severity: LOW" = ⟨"low", "Schedule inspection"⟩ ∧
    parse_gemini_response "Severity: unknown\nRecommendation: Monitor."
        = ⟨"medium", "Monitor."⟩ ∧
    ∀ s : String, (parse_gemini_response s).severity = "low" ∨
      (parse_gemini_response s).severity = "medium" ∨
      (parse_gemini_response s).severity = "high" := by
  refine ⟨by decide, by decide, by decide, by decide, ?_⟩
  intro s
  simp only [parse_gemini_response, String.toList]
  cases h : searchSeverity s.data with
  | none => simp [h]
  | some v => simpa [h] using searchSeverity_mem _ _ h

/-! ## C9: the transient display default -/

/-- Claim C9 counterexample: With no completed enrichment result, the transient
display verdict is severity `"low"` with `"Analyzing..."`, not the
`"medium"`/inspection fallback the claim states. -/
theorem c9_counterexample :
    display_verdict none = ⟨"low", "Analyzing..."⟩ ∧
    ("low" : String) ≠ "medium" ∧
    ("Analyzing..." : String) ≠ "Schedule inspection" :=
  ⟨rfl, by decide, by decide⟩

/-- Claim C9 amended: When a track has no completed enrichment result,
`process_detection` returns no verdict and the transient display/merge verdict
defaults to severity `"low"` with `"Analyzing..."` (the `"medium"` fallback is
only ever written by the failure path of the enrichment call itself). -/
theorem c9_amended_display_default (interval : ℚ) (st : AnalysisState)
    (track_id : ℤ) (crop_size : ℕ) (t : ℚ)
    (h : lookupResult st.track_results track_id = none) :
    (process_detection interval st track_id crop_size t).2.2 = none ∧
    display_verdict (process_detection interval st track_id crop_size t).2.2
      = ⟨"low", "Analyzing..."⟩ := by
  have hr : (process_detection interval st track_id crop_size t).2.2
      = lookupResult st.track_results track_id := by
    simp only [process_detection]
    split_ifs <;> rfl
  rw [hr, h]
  exact ⟨rfl, rfl⟩

/-- Witness for the amended C9: a fresh service state has no result for track
1, so the display verdict is the `"low"`/`"Analyzing..."` default. -/
theorem c9_amended_display_default_witness :
    (process_detection 5 ⟨[], []⟩ 1 1 6).2.2 = none ∧
    display_verdict (process_detection 5 ⟨[], []⟩ 1 1 6).2.2
      = ⟨"low", "Analyzing..."⟩ :=
  c9_amended_display_default 5 ⟨[], []⟩ 1 1 6 rfl

/-! ## The database service (`database_service.py`) and the main loop
(`run_service.py`)

The `detections` table is a list of rows; SQLite's autoincrement key is
threaded as `next_id`.  `save_detection` looks up the row by `track_id` and
either updates it in place (`_update_detection`, an SQL `UPDATE ... WHERE
track_id = ?`, modelled as a map over all rows) or appends a fresh row
(`_insert_detection`).  `datetime.now()` enters as an explicit `now`
argument. -/

/-- The detection dict fields that reach the database layer. -/
structure DetRecord where
  track_id : ℤ
  class_name : String
  confidence : ℚ
  box : ℤ × ℤ × ℤ × ℤ
deriving DecidableEq

/-- A row of the `detections` table. -/
structure Row where
  id : ℕ
  track_id : ℤ
  damage_type : String
  confidence : ℚ
  location : List ℤ
  timestamp : ℕ
  image_path : Option String
  recommendations : Option Verdict
deriving DecidableEq

/-- The location JSON `json.dumps([int(coord) for coord in detection["box"]])`. -/
def boxLocation (b : ℤ × ℤ × ℤ × ℤ) : List ℤ := [b.1, b.2.1, b.2.2.1, b.2.2.2]

/-- Model of `DatabaseService._insert_detection`: append a fresh row (with the next
autoincrement id, a NULL `image_path`) and return its rowid. -/
def _insert_detection (db : List Row) (next_id : ℕ) (det : DetRecord)
    (recommendations : Option Verdict) (now : ℕ) : List Row × ℕ × ℕ :=
  (db ++ [{ id := next_id, track_id := det.track_id, damage_type := det.class_name,
            confidence := det.confidence, location := boxLocation det.box,
            timestamp := now, image_path := none,
            recommendations := recommendations }],
   next_id, next_id + 1)

/-- The effect of the `UPDATE ... WHERE track_id = ?` statement on one row:
overwrite damage_type, confidence, location, timestamp and recommendations
when the `track_id` matches (the id and `image_path` are untouched). -/
def updateRow (det : DetRecord) (recommendations : Option Verdict) (now : ℕ)
    (r : Row) : Row :=
  if r.track_id = det.track_id then
    { r with damage_type := det.class_name, confidence := det.confidence,
             location := boxLocation det.box, timestamp := now,
             recommendations := recommendations }
  else r

/-- Model of `DatabaseService._update_detection`: the update statement hits every row
whose `track_id` matches. -/
def _update_detection (db : List Row) (det : DetRecord)
    (recommendations : Option Verdict) (now : ℕ) : List Row :=
  db.map (updateRow det recommendations now)

/-- Model of `DatabaseService.save_detection`: select by `track_id`; update the
existing row in place, otherwise insert.  Returns (table, rowid, next id). -/
def save_detection (db : List Row) (next_id : ℕ) (det : DetRecord)
    (recommendations : Option Verdict) (now : ℕ) : List Row × ℕ × ℕ :=
  match db.find? fun r => r.track_id == det.track_id with
  | some existing => (_update_detection db det recommendations now, existing.id, next_id)
  | none => _insert_detection db next_id det recommendations now

/-- Model of `DatabaseService.get_detection_by_track_id`. -/
def get_detection_by_track_id (db : List Row) (track_id : ℤ) : Option Row :=
  db.find? fun r => r.track_id == track_id

/-- No two rows share a `track_id` (the `UNIQUE` column invariant). -/
def NoDupTracks (db : List Row) : Prop :=
  db.Pairwise fun a b => a.track_id ≠ b.track_id

instance (db : List Row) : Decidable (NoDupTracks db) :=
  inferInstanceAs (Decidable (db.Pairwise fun a b : Row => a.track_id ≠ b.track_id))

theorem filter_track_length_one {db : List Row} (hnd : NoDupTracks db)
    {r : Row} (hr : r ∈ db) :
    (db.filter fun s => s.track_id == r.track_id).length = 1 := by
  induction db with
  | nil => cases hr
  | cons x xs ih =>
    rw [NoDupTracks, List.pairwise_cons] at hnd
    obtain ⟨hx, hxs⟩ := hnd
    rcases List.mem_cons.mp hr with rfl | hmem
    · have : xs.filter (fun s => s.track_id == r.track_id) = [] := by
        apply List.filter_eq_nil_iff.mpr
        intro s hs
        simpa using (hx s hs).symm
      simp [List.filter_cons, this]
    · have hxr : x.track_id ≠ r.track_id := hx r hmem
      have := ih hxs hmem
      simp only [List.filter_cons]
      rw [if_neg (by simpa using hxr)]
      exact this

/-- Claim C3: Under the one-row-per-track invariant, `save_detection` preserves
the invariant, leaves exactly one row for the saved `track_id`, and that row
carries the latest damage_type, confidence, location, timestamp and
recommendations — the first save inserts, every later save overwrites in
place, and no duplicate row is ever created. -/
theorem c3_upsert_invariant (db : List Row) (next_id : ℕ) (det : DetRecord)
    (recommendations : Option Verdict) (now : ℕ) (hnd : NoDupTracks db) :
    NoDupTracks (save_detection db next_id det recommendations now).1 ∧
    ((save_detection db next_id det recommendations now).1.filter
        fun r => r.track_id == det.track_id).length = 1 ∧
    ∀ r ∈ (save_detection db next_id det recommendations now).1,
      r.track_id = det.track_id →
        r.damage_type = det.class_name ∧ r.confidence = det.confidence ∧
        r.location = boxLocation det.box ∧ r.timestamp = now ∧
        r.recommendations = recommendations := by
  cases hfind : db.find? fun r => r.track_id == det.track_id with
  | some existing =>
    have hmem : existing ∈ db := List.mem_of_find?_eq_some hfind
    have htid : existing.track_id = det.track_id := by
      have := List.find?_some hfind
      simpa using this
    have hsave : (save_detection db next_id det recommendations now).1
        = _update_detection db det recommendations now := by
      simp [save_detection, hfind]
    have hpres : ∀ r : Row, (updateRow det recommendations now r).track_id = r.track_id := by
      intro r
      by_cases h : r.track_id = det.track_id
      · simp [updateRow, h]
      · simp [updateRow, h]
    rw [hsave]
    refine ⟨?_, ?_, ?_⟩
    · rw [NoDupTracks, _update_detection]
      refine List.Pairwise.map _ ?_ hnd
      intro a b hab
      rw [hpres a, hpres b]
      exact hab
    · rw [_update_detection, List.filter_map, List.length_map]
      have hcongr : db.filter
            ((fun r : Row => r.track_id == det.track_id) ∘ updateRow det recommendations now)
          = db.filter fun r : Row => r.track_id == det.track_id := by
        apply List.filter_congr
        intro r _
        simp [Function.comp, hpres r]
      rw [hcongr, ← htid]
      exact filter_track_length_one hnd hmem
    · intro r hr htr
      rw [_update_detection] at hr
      obtain ⟨r0, hr0, hr0eq⟩ := List.mem_map.mp hr
      by_cases h0 : r0.track_id = det.track_id
      · rw [updateRow, if_pos h0] at hr0eq
        rw [← hr0eq]
        exact ⟨rfl, rfl, rfl, rfl, rfl⟩
      · rw [updateRow, if_neg h0] at hr0eq
        rw [← hr0eq] at htr
        exact absurd htr h0
  | none =>
    have habs : ∀ r ∈ db, r.track_id ≠ det.track_id := by
      intro r hr
      have := List.find?_eq_none.mp hfind r hr
      simpa using this
    have hsave : (save_detection db next_id det recommendations now).1
        = db ++ [{ id := next_id, track_id := det.track_id,
                   damage_type := det.class_name, confidence := det.confidence,
                   location := boxLocation det.box, timestamp := now,
                   image_path := none, recommendations := recommendations }] := by
      simp [save_detection, hfind, _insert_detection]
    rw [hsave]
    refine ⟨?_, ?_, ?_⟩
    · rw [NoDupTracks, List.pairwise_append]
      exact ⟨hnd, List.pairwise_singleton _ _,
        fun a ha b hb => by
          rw [List.mem_singleton.mp hb]
          exact habs a ha⟩
    · rw [List.filter_append]
      have h1 : db.filter (fun r : Row => r.track_id == det.track_id) = [] :=
        List.filter_eq_nil_iff.mpr fun r hr => by simpa using habs r hr
      rw [h1]
      simp
    · intro r hr htr
      rcases List.mem_append.mp hr with h | h
      · exact absurd htr (habs r h)
      · rw [List.mem_singleton.mp h]
        exact ⟨rfl, rfl, rfl, rfl, rfl⟩

/-- An existing row for track 4, used to instantiate C3. -/
def c3_row : Row := ⟨1, 4, "pothole", 8/10, [0, 0, 5, 5], 10, none, none⟩

/-- A second save for track 4 with different fields. -/
def c3_det2 : DetRecord := ⟨4, "broken_edge", 7/10, (1, 1, 6, 6)⟩

/-- Witness for C3: re-saving track 4 over an existing row keeps one row and
overwrites its fields. -/
theorem c3_upsert_invariant_witness :
    NoDupTracks (save_detection [c3_row] 2 c3_det2 (some ⟨"high", "Repair"⟩) 20).1 ∧
    ((save_detection [c3_row] 2 c3_det2 (some ⟨"high", "Repair"⟩) 20).1.filter
        fun r => r.track_id == c3_det2.track_id).length = 1 ∧
    ∀ r ∈ (save_detection [c3_row] 2 c3_det2 (some ⟨"high", "Repair"⟩) 20).1,
      r.track_id = c3_det2.track_id →
        r.damage_type = c3_det2.class_name ∧ r.confidence = c3_det2.confidence ∧
        r.location = boxLocation c3_det2.box ∧ r.timestamp = 20 ∧
        r.recommendations = some ⟨"high", "Repair"⟩ :=
  c3_upsert_invariant [c3_row] 2 c3_det2 (some ⟨"high", "Repair"⟩) 20 (by decide)

/-! ## C8: the main loop persists only the first observation -/

/-- The per-detection body of the `main` loop in `run_service.py`
(lines 65-76): look up the track; only when no row exists yet is the analysis
fetched and the detection saved.  The analysis result enters as a
parameter. -/
def main_step (db : List Row) (next_id : ℕ) (det : DetRecord)
    (analysis_result : Option Verdict) (now : ℕ) : List Row × ℕ :=
  match get_detection_by_track_id db det.track_id with
  | some _ => (db, next_id)
  | none =>
    let r := save_detection db next_id det analysis_result now
    (r.1, r.2.2)

/-- First observation of track 7 (confidence 0.9 at time 100). -/
def c8_det1 : DetRecord := ⟨7, "pothole", 9/10, (0, 0, 10, 10)⟩

/-- Second observation of the same track (confidence 0.3 at time 200). -/
def c8_det2 : DetRecord := ⟨7, "pothole", 3/10, (2, 2, 8, 8)⟩

/-- Claim C8 counterexample: After track 7 is first persisted (confidence 0.9,
time 100), a second observation with confidence 0.3 at time 200 leaves the
table untouched: the stored row keeps the old confidence and timestamp, so
subsequent observations do not update the row as the claim states. -/
theorem c8_counterexample :
    (main_step (main_step [] 1 c8_det1 none 100).1 (main_step [] 1 c8_det1 none 100).2
        c8_det2 none 200).1
      = (main_step [] 1 c8_det1 none 100).1 ∧
    ((main_step [] 1 c8_det1 none 100).1.map fun r => (r.confidence, r.timestamp))
      = [(9/10, 100)] ∧
    ¬ ((9 : ℚ)/10 = 3/10 ∧ (100 : ℕ) = 200) := by
  refine ⟨rfl, rfl, ?_⟩
  rintro ⟨-, h⟩
  cases h

/-- Claim C8 amended: In the main pipeline a record is created on the first
observation of a `track_id`; every later observation of the same track is
skipped entirely (the row keeps the fields persisted first — `save_detection`
would update in place, but `main` only calls it when no row exists). -/
theorem c8_first_observation_only (db : List Row) (next_id : ℕ)
    (det : DetRecord) (analysis_result : Option Verdict) (now : ℕ) :
    (get_detection_by_track_id db det.track_id ≠ none →
      main_step db next_id det analysis_result now = (db, next_id)) ∧
    (get_detection_by_track_id db det.track_id = none →
      (main_step db next_id det analysis_result now).1
        = db ++ [{ id := next_id, track_id := det.track_id,
                   damage_type := det.class_name, confidence := det.confidence,
                   location := boxLocation det.box, timestamp := now,
                   image_path := none, recommendations := analysis_result }]) := by
  cases h : get_detection_by_track_id db det.track_id with
  | some r =>
    refine ⟨fun _ => by simp [main_step, h], fun hnone => absurd hnone (by simp)⟩
  | none =>
    refine ⟨fun hne => absurd rfl hne, fun _ => ?_⟩
    have hfind : db.find? (fun r : Row => r.track_id == det.track_id) = none := h
    simp [main_step, h, save_detection, hfind, _insert_detection]

/-- Witness for the amended C8: on an empty table the first observation of
track 7 inserts the row with its fields. -/
theorem c8_first_observation_only_witness :
    (main_step [] 1 c8_det1 none 100).1
      = [] ++ [{ id := 1, track_id := c8_det1.track_id,
                 damage_type := c8_det1.class_name, confidence := c8_det1.confidence,
                 location := boxLocation c8_det1.box, timestamp := 100,
                 image_path := none, recommendations := none }] :=
  (c8_first_observation_only [] 1 c8_det1 none 100).2 rfl

end RoadInspect
